import Mathlib

/-!
Verification of the text decoder in apple_notes_reader.py.

The core under study is the function extract_text_from_protobuf (source
lines 38-106): a heuristic scanner that walks a byte buffer (possibly
gzip-compressed), recovers length-delimited candidate byte spans, filters
them for readable UTF-8 text, and deduplicates the resulting lines.

Modelling conventions:
- a byte buffer is a List Nat (each element one byte value);
- a Python string is a List Nat of Unicode code points;
- the gzip library call is an oracle parameter
  gunzip : List Nat -> Option (List Nat) (none = the library raised);
- the Python str.isalpha test is an oracle parameter alpha : Nat -> Bool
  (the claims only exercise ASCII letters, supplied concretely by
  asciiIsAlpha below);
- the scanner loops are written with an explicit fuel argument so that the
  definitions are structurally recursive and computable by the kernel; the
  cursor advances by at least one byte per iteration (theorem about
  scanStep below), so fuel = buffer length + 1 never runs out.
-/

namespace AppleNotes

/-- Code points Python's str.isspace accepts (the set stripped by
str.strip): ASCII whitespace, the C1 separators, NEL, NBSP and the
Unicode Zs/Zl/Zp space characters. -/
def pythonWhitespace : List Nat :=
  [9, 10, 11, 12, 13, 28, 29, 30, 31, 32, 133, 160, 5760,
   8192, 8193, 8194, 8195, 8196, 8197, 8198, 8199, 8200, 8201, 8202,
   8232, 8233, 8239, 8287, 12288]

/-- Python str.isspace on a single code point. -/
def pyIsSpace (c : Nat) : Bool := decide (c ∈ pythonWhitespace)

/-- Python str.strip(): drop leading and trailing whitespace
(source line 101: line = line.strip()). -/
def pyStrip (s : List Nat) : List Nat :=
  (((s.dropWhile pyIsSpace).reverse).dropWhile pyIsSpace).reverse

/-- Python str.split on a single newline separator
(source line 100: full_text.split from the newline join). The result
always has (number of newlines) + 1 entries; splitting the empty string
yields one empty entry, exactly as in Python. -/
def splitNl : List Nat → List (List Nat)
  | [] => [[]]
  | c :: rest =>
    if c = 10 then [] :: splitNl rest
    else
      match splitNl rest with
      | l :: ls => (c :: l) :: ls
      | [] => [[c]]

/-- Python newline join (source lines 96 and 106). -/
def joinNl : List (List Nat) → List Nat
  | [] => []
  | [l] => l
  | l :: ls => l ++ 10 :: joinNl ls

/-- UTF-8 continuation byte test. -/
def contByte (b : Nat) : Bool := decide (128 ≤ b ∧ b ≤ 191)

/-- Strict UTF-8 decoding of a byte list into code points, exactly as
Python's bytes.decode with the utf-8 codec (source line 81): rejects
stray or missing continuation bytes, overlong encodings, surrogates and
code points above U+10FFFF; none models the UnicodeDecodeError. -/
def utf8Decode : List Nat → Option (List Nat)
  | [] => some []
  | b :: rest =>
    if b ≤ 127 then
      (utf8Decode rest).map (fun t => b :: t)
    else if b < 194 then
      none
    else if b ≤ 223 then
      match rest with
      | c1 :: r1 =>
        if contByte c1 then
          (utf8Decode r1).map (fun t => (((b - 192) <<< 6) ||| (c1 - 128)) :: t)
        else none
      | [] => none
    else if b ≤ 239 then
      match rest with
      | c1 :: c2 :: r2 =>
        if (if b = 224 then decide (160 ≤ c1 ∧ c1 ≤ 191)
            else if b = 237 then decide (128 ≤ c1 ∧ c1 ≤ 159)
            else contByte c1) && contByte c2 then
          (utf8Decode r2).map
            (fun t => (((b - 224) <<< 12) ||| ((c1 - 128) <<< 6) ||| (c2 - 128)) :: t)
        else none
      | _ => none
    else if b ≤ 244 then
      match rest with
      | c1 :: c2 :: c3 :: r3 =>
        if (if b = 240 then decide (144 ≤ c1 ∧ c1 ≤ 191)
            else if b = 244 then decide (128 ≤ c1 ∧ c1 ≤ 143)
            else contByte c1) && contByte c2 && contByte c3 then
          (utf8Decode r3).map
            (fun t => (((b - 240) <<< 18) ||| ((c1 - 128) <<< 12) |||
                       ((c2 - 128) <<< 6) ||| (c3 - 128)) :: t)
        else none
      | _ => none
    else none

/-- One character of the regex class [0-9a-f-] under re.IGNORECASE
(so also A-F), from the pattern on source line 87. -/
def isHexDash (c : Nat) : Bool :=
  decide ((48 ≤ c ∧ c ≤ 57) ∨ (97 ≤ c ∧ c ≤ 102) ∨ (65 ≤ c ∧ c ≤ 70) ∨ c = 45)

/-- Python re.match of the anchored pattern of 36 hex-or-dash characters
with re.IGNORECASE (source line 87). In Python the dollar anchor matches
at the end of the string OR just before a single newline that ends the
string, so a 37-code-point string whose first 36 code points are in the
class and whose last code point is a newline also matches. -/
def uuidMatch (t : List Nat) : Bool :=
  (t.length == 36 && t.all isHexDash) ||
  (t.length == 37 && (t.take 36).all isHexDash && t.getD 36 0 == 10)

/-- The candidate filter, source lines 78-90: decode as UTF-8 (reject on
error), keep only strings longer than one character that contain an
alphabetic character, do not start with a null character, and do not
match the UUID regex. The alpha oracle models Python str.isalpha. -/
def textFilter (alpha : Nat → Bool) (bs : List Nat) : Option (List Nat) :=
  match utf8Decode bs with
  | none => none
  | some text =>
    if text.length > 1 ∧ text.any alpha = true ∧ text.headD 1 ≠ 0 then
      if uuidMatch text = false then some text else none
    else none

/-- The varint loop of source lines 66-74, run on the suffix of the buffer
that starts at the read position: returns (parsed length, number of bytes
consumed). Reading stops at a byte with the high bit clear, or when the
buffer is exhausted. -/
def varintGo : List Nat → Nat → Nat → Nat × Nat
  | [], length, _ => (length, 0)
  | b :: rest, length, shift =>
    let length2 := length ||| ((b &&& 127) <<< shift)
    if b &&& 128 = 0 then
      (length2, 1)
    else
      let p := varintGo rest length2 (shift + 7)
      (p.1, p.2 + 1)

/-- One iteration of the while-loop of source lines 57-93, at cursor i:
returns the next cursor value together with the emitted candidate span
(start, length), if any. A tag byte is only examined when i + 2 < buffer
length (source line 59); on a wire-type-2 tag the varint is parsed from
i + 1, and a length passing the validation of source line 77 emits the
span and jumps past it, while a failing length falls through to the
final cursor increment of source line 93, one byte past the position at
which the varint parse stopped. -/
def scanStep (d : List Nat) (i : Nat) : Nat × Option (Nat × Nat) :=
  if i + 2 < d.length ∧ (d.getD i 0) &&& 7 = 2 then
    let v := varintGo (d.drop (i + 1)) 0 0
    let j := i + 1 + v.2
    if 0 < v.1 ∧ v.1 < 10000 ∧ j + v.1 ≤ d.length then
      (j + v.1, some (j, v.1))
    else
      (j + 1, none)
  else
    (i + 1, none)

/-- The scanner loop (source lines 57-93) iterated with explicit fuel,
collecting the emitted candidate spans in order. -/
def scanGo (d : List Nat) : Nat → Nat → List (Nat × Nat)
  | 0, _ => []
  | fuel + 1, i =>
    if i < d.length then
      match scanStep d i with
      | (next, some sp) => sp :: scanGo d fuel next
      | (next, none) => scanGo d fuel next
    else []

/-- All candidate spans emitted when scanning a buffer from cursor 0.
Fuel d.length + 1 suffices because the cursor strictly increases on every
iteration. -/
def scanLoop (d : List Nat) : List (Nat × Nat) := scanGo d (d.length + 1) 0

/-- The successive values of the scanner's cursor, one entry per
while-loop iteration, ending with the first value that reaches the end
of the buffer. -/
def cursorsGo (d : List Nat) : Nat → Nat → List Nat
  | 0, i => [i]
  | fuel + 1, i =>
    if i < d.length then i :: cursorsGo d fuel (scanStep d i).1
    else [i]

/-- Cursor trace of a full scan. -/
def scanCursors (d : List Nat) : List Nat := cursorsGo d (d.length + 1) 0

/-- Every buffer index read during the scan, in order: the tag byte read
of source line 60, the varint byte reads of source line 69 and the
candidate slice read of source line 79. -/
def readsGo (d : List Nat) : Nat → Nat → List Nat
  | 0, _ => []
  | fuel + 1, i =>
    if i < d.length then
      if i + 2 < d.length then
        if (d.getD i 0) &&& 7 = 2 then
          let v := varintGo (d.drop (i + 1)) 0 0
          let j := i + 1 + v.2
          i :: (List.range v.2).map (fun k => i + 1 + k) ++
            (if 0 < v.1 ∧ v.1 < 10000 ∧ j + v.1 ≤ d.length then
              (List.range v.1).map (fun k => j + k) ++ readsGo d fuel (j + v.1)
            else readsGo d fuel (j + 1))
        else
          i :: readsGo d fuel (i + 1)
      else
        readsGo d fuel (i + 1)
    else []

/-- Read trace of a full scan. -/
def scanReads (d : List Nat) : List Nat := readsGo d (d.length + 1) 0

/-- The Python slice d[s : s + l] (source line 79). -/
def spanBytes (d : List Nat) (s l : Nat) : List Nat := (d.drop s).take l

/-- The candidate byte spans of a buffer, as byte lists. -/
def candidates (d : List Nat) : List (List Nat) :=
  (scanLoop d).map (fun sp => spanBytes d sp.1 sp.2)

/-- The accepted text parts, in scan order (source line 88 appends;
the cursor advance of source line 91 happens whether or not the filter
accepts, so filtering factors out of the scan loop unchanged). -/
def textParts (alpha : Nat → Bool) (d : List Nat) : List (List Nat) :=
  (candidates d).filterMap (textFilter alpha)

/-- Source lines 46-50: try gzip decompression, and on any exception use
the raw input. The gunzip oracle models the gzip library call, returning
none when the library would raise. -/
def decompress (gunzip : List Nat → Option (List Nat)) (data : List Nat) : List Nat :=
  match gunzip data with
  | some out => out
  | none => data

/-- The deduplication loop of source lines 98-104: strip each line, skip
empty lines and lines already seen, append the rest in order. The seen
set is modelled as a list queried only through membership. -/
def dedupLoop : List (List Nat) → List (List Nat) → List (List Nat) → List (List Nat)
  | [], _, lines => lines
  | l :: rest, seen, lines =>
    let t := pyStrip l
    if t ≠ [] ∧ t ∉ seen then dedupLoop rest (t :: seen) (lines ++ [t])
    else dedupLoop rest seen lines

/-- The final list of output lines of extract_text_from_protobuf for one
buffer: empty input short-circuits (source line 43), otherwise the
accepted parts are newline-joined, re-split, and deduplicated
(source lines 96-104). -/
def decodeLines (gunzip : List Nat → Option (List Nat)) (alpha : Nat → Bool)
    (data : List Nat) : List (List Nat) :=
  if data = [] then []
  else dedupLoop (splitNl (joinNl (textParts alpha (decompress gunzip data)))) [] []

/-- extract_text_from_protobuf, source lines 38-106: the newline join of
the deduplicated output lines (the early return of the empty string on
empty input coincides with joining the empty line list). -/
def extract_text_from_protobuf (gunzip : List Nat → Option (List Nat))
    (alpha : Nat → Bool) (data : List Nat) : List Nat :=
  joinNl (decodeLines gunzip alpha data)

/-- Python str.isalpha restricted to ASCII: a concrete instance of the
alpha oracle, exact on every code point below 128. -/
def asciiIsAlpha (c : Nat) : Bool :=
  decide ((65 ≤ c ∧ c ≤ 90) ∨ (97 ≤ c ∧ c ≤ 122))

/-- A gunzip oracle for buffers that are not valid gzip: the library
always raises. -/
def noGzip : List Nat → Option (List Nat) := fun _ => none

/-- Code points of a string literal, for writing concrete expected
values. -/
def strCp (s : String) : List Nat := s.data.map Char.toNat

/-- Concrete buffer with three wire-type-2 fields: hello, hello, ab. -/
def helloBuf : List Nat :=
  [10, 5] ++ strCp "hello" ++ [10, 5] ++ strCp "hello" ++ [10, 2] ++ strCp "ab"

/-- Concrete buffer: one valid field (hi) followed by a truncated varint
(tag byte, then only continuation bytes to the end of the buffer). -/
def truncBuf : List Nat := [10, 2, 104, 105, 10, 128, 128, 128]

/-- Concrete buffer whose first tag byte is followed by the varint 0, an
invalid length; positions 1 and 2 hide a valid field that a scanner
resuming at the tag position + 1 would find. -/
def invalidLenBuf : List Nat := [10, 0, 10, 2, 104, 105, 0, 0, 0]

/-- Code points of a lowercase hex UUID string. -/
def uuidCp : List Nat := strCp "550e8400-e29b-41d4-a716-446655440000"

/-- Concrete buffer with two fields: the UUID alone, and the letter a,
a newline and the same UUID inside one candidate. -/
def uuidEmbedBuf : List Nat := [10, 36] ++ uuidCp ++ [10, 38] ++ (97 :: 10 :: uuidCp)

/-- Concrete buffer with a single field whose text is ab, a newline and
the digit 1. -/
def newlineFieldBuf : List Nat := [10, 4, 97, 98, 10, 49]

/-- 36 copies of the letter a followed by a newline: 37 code points, so
not a 36-character string, yet rejected by the code's regex because the
dollar anchor matches before a trailing newline. -/
def uuidNlText : List Nat := List.replicate 36 97 ++ [10]

/-- Concrete buffer wrapping uuidNlText as a single wire-type-2 field. -/
def uuidNlBuf : List Nat := [10, 37] ++ uuidNlText

/-- A toy invertible compression oracle for witnesses: prepends the byte
31, and the paired gunzip strips it and fails on anything else. -/
def toyGunzip : List Nat → Option (List Nat) := fun d =>
  match d with
  | 31 :: rest => some rest
  | _ => none

/-- The fold step of deduplication as the spec words it: strip the line,
skip it when empty or already retained, append it otherwise. -/
def dedupF (acc : List (List Nat)) (l : List Nat) : List (List Nat) :=
  if pyStrip l ≠ [] ∧ pyStrip l ∉ acc then acc ++ [pyStrip l] else acc

/-- Modelled from the spec (claim C3 wording): trim each line, drop empty
lines and retain only the first occurrence of each distinct value, in
first-seen order. -/
def firstSeenDedup (ls : List (List Nat)) : List (List Nat) :=
  ls.foldl dedupF []

/-- The literal UUID shape of claim C2 and claim C7: exactly 36 code
points, each in the hex-or-dash class (case-insensitively). -/
def uuidShapeSpec (t : List Nat) : Prop :=
  t.length = 36 ∧ ∀ c ∈ t, isHexDash c = true

/-- The UUID shape the code's regex actually rejects: 36 hex-or-dash code
points, or the same followed by one trailing newline (the Python dollar
anchor matches before a final newline). -/
def uuidShapeNl (t : List Nat) : Prop :=
  (t.length = 36 ∧ ∀ c ∈ t, isHexDash c = true) ∨
  (t.length = 37 ∧ (∀ c ∈ t.take 36, isHexDash c = true) ∧ t.getD 36 0 = 10)

/-- Modelled from the spec (claim C2 wording): the candidate is accepted
exactly when its bytes decode as UTF-8 to a string longer than one
character, containing an alphabetic character, not starting with a null
character, and not matching the 36-character UUID shape. -/
def specFilterAccept (alpha : Nat → Bool) (bs : List Nat) : Prop :=
  ∃ t, utf8Decode bs = some t ∧ t.length > 1 ∧ t.any alpha = true ∧
    t.headD 1 ≠ 0 ∧ ¬ uuidShapeSpec t

/-- The acceptance predicate amended per the counterexample: the rejected
shape additionally covers a single trailing newline after the 36
hex-or-dash code points. -/
def specFilterAcceptAmended (alpha : Nat → Bool) (bs : List Nat) : Prop :=
  ∃ t, utf8Decode bs = some t ∧ t.length > 1 ∧ t.any alpha = true ∧
    t.headD 1 ≠ 0 ∧ ¬ uuidShapeNl t

/-! ## Helper lemmas about the scanner -/

theorem varintGo_snd_le (l : List Nat) : ∀ a s, (varintGo l a s).2 ≤ l.length := by
  induction l with
  | nil => intro a s; simp [varintGo]
  | cons b rest ih =>
    intro a s
    by_cases h : b &&& 128 = 0
    · simp [varintGo, h]
    · simp only [varintGo, if_neg h, List.length_cons]
      exact Nat.succ_le_succ (ih _ _)

theorem varintGo_snd_pos (b : Nat) (rest : List Nat) (a s : Nat) :
    0 < (varintGo (b :: rest) a s).2 := by
  by_cases h : b &&& 128 = 0 <;> simp [varintGo, h]

/-- The cursor strictly increases on every iteration of the scan loop:
the source of the termination bound. -/
theorem scanStep_lt (d : List Nat) (i : Nat) : i < (scanStep d i).1 := by
  simp only [scanStep]
  split
  · next h =>
    obtain ⟨h1, _⟩ := h
    have hpos : 0 < (varintGo (d.drop (i + 1)) 0 0).2 := by
      cases hd : d.drop (i + 1) with
      | nil =>
        have := congrArg List.length hd
        simp [List.length_drop] at this
        omega
      | cons b rest => exact varintGo_snd_pos b rest 0 0
    split
    · next hv => simp; omega
    · simp; omega
  · simp

/-- An emitted span satisfies the validation bounds of source line 77. -/
theorem scanStep_emit (d : List Nat) (i s l : Nat)
    (h : (scanStep d i).2 = some (s, l)) :
    0 < l ∧ l < 10000 ∧ s + l ≤ d.length := by
  simp only [scanStep] at h
  split at h
  · split at h
    · next hv =>
      simp only [Prod.snd, Option.some.injEq, Prod.mk.injEq] at h
      obtain ⟨hs, hl⟩ := h
      subst hs; subst hl
      exact ⟨hv.1, hv.2.1, hv.2.2⟩
    · simp at h
  · simp at h

theorem scanGo_bounds (d : List Nat) :
    ∀ fuel i s l, (s, l) ∈ scanGo d fuel i → 0 < l ∧ l < 10000 ∧ s + l ≤ d.length := by
  intro fuel
  induction fuel with
  | zero => intro i s l h; simp [scanGo] at h
  | succ f ih =>
    intro i s l h
    simp only [scanGo] at h
    split at h
    · rcases hstep : scanStep d i with ⟨next, osp⟩
      rw [hstep] at h
      cases osp with
      | none => exact ih next s l h
      | some sp =>
        rcases List.mem_cons.mp h with rfl | hmem
        · exact scanStep_emit d i s l (by rw [hstep])
        · exact ih next s l hmem
    · simp at h

theorem cursorsGo_head (d : List Nat) (f i : Nat) :
    ∃ t, cursorsGo d f i = i :: t := by
  cases f with
  | zero => exact ⟨[], rfl⟩
  | succ f =>
    simp only [cursorsGo]
    split
    · exact ⟨_, rfl⟩
    · exact ⟨[], rfl⟩

theorem cursorsGo_chain (d : List Nat) :
    ∀ f i, List.Chain' (· < ·) (cursorsGo d f i) := by
  intro f
  induction f with
  | zero => intro i; simp [cursorsGo]
  | succ f ih =>
    intro i
    simp only [cursorsGo]
    split
    · obtain ⟨t, ht⟩ := cursorsGo_head d f (scanStep d i).1
      rw [ht, List.chain'_cons]
      exact ⟨scanStep_lt d i, ht ▸ ih (scanStep d i).1⟩
    · simp

theorem readsGo_lt (d : List Nat) :
    ∀ fuel i r, r ∈ readsGo d fuel i → r < d.length := by
  intro fuel
  induction fuel with
  | zero => intro i r h; simp [readsGo] at h
  | succ f ih =>
    intro i r h
    simp only [readsGo] at h
    split at h
    · next hi =>
      split at h
      · next hi2 =>
        split at h
        · next htag =>
          rcases List.mem_cons.mp h with rfl | h2
          · omega
          · rcases List.mem_append.mp h2 with h3 | h3
            · obtain ⟨k, hk, rfl⟩ := List.mem_map.mp h3
              have hk2 := List.mem_range.mp hk
              have hle := varintGo_snd_le (d.drop (i + 1)) 0 0
              rw [List.length_drop] at hle
              omega
            · split at h3
              · next hv =>
                rcases List.mem_append.mp h3 with h4 | h4
                · obtain ⟨k, hk, rfl⟩ := List.mem_map.mp h4
                  have hk2 := List.mem_range.mp hk
                  omega
                · exact ih _ _ h4
              · exact ih _ _ h3
        · rcases List.mem_cons.mp h with rfl | h2
          · omega
          · exact ih _ _ h2
      · exact ih _ _ h
    · simp at h

/-! ## Helper lemmas about splitting, joining and deduplication -/

theorem splitNl_ne_nil (s : List Nat) : splitNl s ≠ [] := by
  cases s with
  | nil => simp [splitNl]
  | cons c rest =>
    simp only [splitNl]
    split
    · simp
    · cases h : splitNl rest <;> simp

theorem splitNl_no_newline (s : List Nat) : ∀ l ∈ splitNl s, 10 ∉ l := by
  induction s with
  | nil =>
    intro l hl
    simp [splitNl] at hl
    subst hl; simp
  | cons c rest ih =>
    intro l hl
    simp only [splitNl] at hl
    by_cases hc : c = 10
    · rw [if_pos hc] at hl
      rcases List.mem_cons.mp hl with rfl | hl2
      · simp
      · exact ih l hl2
    · rw [if_neg hc] at hl
      cases h : splitNl rest with
      | nil => exact absurd h (splitNl_ne_nil rest)
      | cons m ms =>
        rw [h] at hl
        rcases List.mem_cons.mp hl with rfl | hl2
        · intro hmem
          rcases List.mem_cons.mp hmem with h10 | h10
          · exact hc h10.symm
          · exact ih m (h ▸ List.mem_cons_self m ms) h10
        · exact ih l (h ▸ List.mem_cons_of_mem m hl2)

theorem splitNl_of_no_newline (s : List Nat) (h : 10 ∉ s) : splitNl s = [s] := by
  induction s with
  | nil => rfl
  | cons c rest ih =>
    have hc : c ≠ 10 := by
      intro hx; subst hx; exact h (List.mem_cons_self 10 rest)
    have hr : 10 ∉ rest := fun hx => h (List.mem_cons_of_mem c hx)
    simp [splitNl, if_neg hc, ih hr]

theorem splitNl_append_newline (x t : List Nat) (h : 10 ∉ x) :
    splitNl (x ++ 10 :: t) = x :: splitNl t := by
  induction x with
  | nil => simp [splitNl]
  | cons c x2 ih =>
    have hc : c ≠ 10 := by
      intro hx; subst hx; exact h (List.mem_cons_self 10 x2)
    have hx2 : 10 ∉ x2 := fun hm => h (List.mem_cons_of_mem c hm)
    simp [List.cons_append, splitNl, if_neg hc, ih hx2]

theorem splitNl_joinNl : ∀ L : List (List Nat), L ≠ [] →
    (∀ l ∈ L, 10 ∉ l) → splitNl (joinNl L) = L := by
  intro L
  induction L with
  | nil => intro h _; exact absurd rfl h
  | cons l rest ih =>
    intro _ h
    cases rest with
    | nil => exact splitNl_of_no_newline l (h l (List.mem_cons_self l []))
    | cons l2 rest2 =>
      have hj : joinNl (l :: l2 :: rest2) = l ++ 10 :: joinNl (l2 :: rest2) := rfl
      rw [hj, splitNl_append_newline l _ (h l (List.mem_cons_self _ _)),
        ih (by simp) (fun m hm => h m (List.mem_cons_of_mem l hm))]

theorem mem_dropWhile {p : Nat → Bool} {c : Nat} :
    ∀ s : List Nat, c ∈ s.dropWhile p → c ∈ s := by
  intro s
  induction s with
  | nil => intro h; simp at h
  | cons a rest ih =>
    intro h
    rw [List.dropWhile_cons] at h
    split at h
    · exact List.mem_cons_of_mem a (ih h)
    · exact h

theorem mem_pyStrip (c : Nat) (s : List Nat) (h : c ∈ pyStrip s) : c ∈ s := by
  rw [pyStrip, List.mem_reverse] at h
  have h2 := mem_dropWhile _ h
  rw [List.mem_reverse] at h2
  exact mem_dropWhile _ h2

theorem dedupLoop_eq_foldl : ∀ (ls seen lines : List (List Nat)),
    (∀ t, t ∈ seen ↔ t ∈ lines) →
    dedupLoop ls seen lines = ls.foldl dedupF lines := by
  intro ls
  induction ls with
  | nil => intro seen lines _; rfl
  | cons l rest ih =>
    intro seen lines h
    simp only [dedupLoop, List.foldl_cons, dedupF]
    by_cases hc : pyStrip l ≠ [] ∧ pyStrip l ∉ seen
    · rw [if_pos hc, if_pos ⟨hc.1, fun hm => hc.2 ((h _).mpr hm)⟩]
      refine ih _ _ (fun t => ?_)
      simp only [List.mem_cons, List.mem_append, List.mem_singleton]
      rw [h t]
      tauto
    · have hc2 : ¬ (pyStrip l ≠ [] ∧ pyStrip l ∉ lines) := by
        intro hx; exact hc ⟨hx.1, fun hm => hx.2 ((h _).mp hm)⟩
      rw [if_neg hc, if_neg hc2]
      exact ih _ _ h

theorem foldl_dedupF_nodup : ∀ (ls acc : List (List Nat)),
    acc.Nodup → (ls.foldl dedupF acc).Nodup := by
  intro ls
  induction ls with
  | nil => intro acc h; exact h
  | cons l rest ih =>
    intro acc h
    rw [List.foldl_cons]
    refine ih _ ?_
    unfold dedupF
    split
    · next hc =>
      rw [List.nodup_append]
      exact ⟨h, List.nodup_singleton _, fun a ha hb => hc.2 (by simpa using (List.mem_singleton.mp hb) ▸ ha)⟩
    · exact h

theorem foldl_dedupF_no_nil : ∀ (ls acc : List (List Nat)),
    [] ∉ acc → [] ∉ ls.foldl dedupF acc := by
  intro ls
  induction ls with
  | nil => intro acc h; exact h
  | cons l rest ih =>
    intro acc h
    rw [List.foldl_cons]
    refine ih _ ?_
    unfold dedupF
    split
    · next hc =>
      intro hmem
      rcases List.mem_append.mp hmem with h1 | h1
      · exact h h1
      · exact hc.1 (List.mem_singleton.mp h1).symm
    · exact h

theorem foldl_dedupF_mem : ∀ (ls acc : List (List Nat)) (x : List Nat),
    x ∈ ls.foldl dedupF acc → x ∈ acc ∨ x ∈ ls.map pyStrip := by
  intro ls
  induction ls with
  | nil => intro acc x h; exact Or.inl h
  | cons l rest ih =>
    intro acc x h
    rw [List.foldl_cons] at h
    rcases ih _ x h with h1 | h1
    · unfold dedupF at h1
      split at h1
      · rcases List.mem_append.mp h1 with h2 | h2
        · exact Or.inl h2
        · exact Or.inr (by simp [List.mem_singleton.mp h2])
      · exact Or.inl h1
    · exact Or.inr (List.mem_cons_of_mem _ h1)

theorem uuidMatch_iff (t : List Nat) : uuidMatch t = true ↔ uuidShapeNl t := by
  unfold uuidMatch uuidShapeNl
  simp only [List.all_eq_true, Bool.or_eq_true, Bool.and_eq_true, beq_iff_eq]
  tauto

/-! ## Claims -/

/-- Claim C1 (corrected), counterexample: the claim says that after a
wire-type-2 tag whose parsed length fails validation the scanner resumes
at exactly one byte past the tag position. On invalidLenBuf the tag at
position 0 parses an invalid length (0) in one varint byte, and the next
cursor value is 3, not 1. -/
theorem c1_resume_at_tag_counterexample :
    ¬ (∀ (d : List Nat) (i : Nat),
        i + 2 < d.length → (d.getD i 0) &&& 7 = 2 →
        ¬ (0 < (varintGo (d.drop (i + 1)) 0 0).1 ∧
           (varintGo (d.drop (i + 1)) 0 0).1 < 10000 ∧
           i + 1 + (varintGo (d.drop (i + 1)) 0 0).2 + (varintGo (d.drop (i + 1)) 0 0).1
             ≤ d.length) →
        (scanStep d i).1 = i + 1) := by
  intro h
  have h2 := h invalidLenBuf 0 (by decide) (by decide) (by decide)
  exact absurd h2 (by decide)

/-- Claim C1 (amended): when a wire-type-2 tag byte is found but the
parsed varint length fails validation, the scanner discards the attempt
and resumes at exactly one byte past the position where the failed varint
parse ended (tag position + 1 + varint bytes consumed + 1), not one byte
past the tag; the cursor still moves strictly forward every iteration, so
the scan still terminates. -/
theorem c1_resume_past_varint_end (d : List Nat) (i : Nat)
    (h1 : i + 2 < d.length) (h2 : (d.getD i 0) &&& 7 = 2)
    (h3 : ¬ (0 < (varintGo (d.drop (i + 1)) 0 0).1 ∧
             (varintGo (d.drop (i + 1)) 0 0).1 < 10000 ∧
             i + 1 + (varintGo (d.drop (i + 1)) 0 0).2 + (varintGo (d.drop (i + 1)) 0 0).1
               ≤ d.length)) :
    (scanStep d i).1 = i + 1 + (varintGo (d.drop (i + 1)) 0 0).2 + 1 ∧
    i < (scanStep d i).1 := by
  refine ⟨?_, scanStep_lt d i⟩
  simp only [scanStep]
  rw [if_pos ⟨h1, h2⟩, if_neg h3]

/-- Witness for claim C1's amended theorem at the concrete buffer
invalidLenBuf, tag position 0. -/
theorem c1_resume_past_varint_end_witness :
    (scanStep invalidLenBuf 0).1 =
      0 + 1 + (varintGo (invalidLenBuf.drop 1) 0 0).2 + 1 ∧
    0 < (scanStep invalidLenBuf 0).1 :=
  c1_resume_past_varint_end invalidLenBuf 0 (by decide) (by decide) (by decide)

/-- Claim C2 (corrected), counterexample: the filter does not accept
exactly the candidates the claim describes. The scanner emits the span of
uuidNlBuf holding 36 letters a followed by a newline; that span satisfies
every condition of the claim (valid UTF-8, 37 characters, alphabetic, no
leading null, and not a 36-character hex-or-dash string), yet the code
rejects it because Python's dollar anchor lets the UUID regex match
before the trailing newline. -/
theorem c2_filter_spec_counterexample :
    ¬ (∀ (alpha : Nat → Bool) (d : List Nat) (sp : Nat × Nat), sp ∈ scanLoop d →
        ((textFilter alpha (spanBytes d sp.1 sp.2)).isSome = true ↔
          specFilterAccept alpha (spanBytes d sp.1 sp.2))) := by
  intro h
  have h2 := h asciiIsAlpha uuidNlBuf (2, 37) (by decide)
  have hs : spanBytes uuidNlBuf 2 37 = uuidNlText := by decide
  rw [hs] at h2
  have h3 : (textFilter asciiIsAlpha uuidNlText).isSome = true := by
    refine h2.mpr ⟨uuidNlText, by decide, by decide, by decide, by decide, ?_⟩
    intro hc
    exact absurd hc.1 (by decide)
  exact absurd h3 (by decide)

/-- Claim C2 (amended): the filter accepts a byte span, and only then,
when it decodes as valid UTF-8 to a string longer than one character with
at least one alphabetic character, whose first character is not null, and
which does not case-insensitively match 36 hexadecimal-or-dash characters
optionally followed by a single trailing newline; rejection is silent
(the filter returns nothing). -/
theorem c2_filter_characterization (alpha : Nat → Bool) (bs : List Nat) :
    (textFilter alpha bs).isSome = true ↔ specFilterAcceptAmended alpha bs := by
  unfold specFilterAcceptAmended
  cases h : utf8Decode bs with
  | none =>
    have ht : textFilter alpha bs = none := by
      unfold textFilter
      rw [h]
    simp [ht]
  | some t =>
    have ht : textFilter alpha bs =
        (if t.length > 1 ∧ t.any alpha = true ∧ t.headD 1 ≠ 0 then
          if uuidMatch t = false then some t else none
        else none) := by
      unfold textFilter
      rw [h]
    rw [ht]
    constructor
    · intro hsome
      by_cases hc : t.length > 1 ∧ t.any alpha = true ∧ t.headD 1 ≠ 0
      · rw [if_pos hc] at hsome
        by_cases hu : uuidMatch t = false
        · refine ⟨t, rfl, hc.1, hc.2.1, hc.2.2, fun hx => ?_⟩
          rw [(uuidMatch_iff t).mpr hx] at hu
          exact Bool.noConfusion hu
        · rw [if_neg hu] at hsome
          simp at hsome
      · rw [if_neg hc] at hsome
        simp at hsome
    · rintro ⟨t2, ht2, hlen, hany, hhead, hu⟩
      obtain rfl : t = t2 := Option.some.inj ht2
      have huf : uuidMatch t = false :=
        Bool.eq_false_iff.mpr (fun hx => hu ((uuidMatch_iff t).mp hx))
      rw [if_pos ⟨hlen, hany, hhead⟩, if_pos huf]
      rfl

/-- Claim C3 (confirmed): the output lines of decode are exactly the
first-seen-order deduplication of the stripped lines of the accepted
candidates: no two equal lines, no empty line, every line a stripped
line of the joined candidates, and splitting the returned string on
newlines recovers exactly that line list. -/
theorem c3_dedup_properties (gunzip : List Nat → Option (List Nat))
    (alpha : Nat → Bool) (data : List Nat) :
    (decodeLines gunzip alpha data).Nodup ∧
    [] ∉ decodeLines gunzip alpha data ∧
    (∀ l, l ∈ decodeLines gunzip alpha data →
      l ∈ (splitNl (joinNl (textParts alpha (decompress gunzip data)))).map pyStrip) ∧
    (data ≠ [] → decodeLines gunzip alpha data =
      firstSeenDedup (splitNl (joinNl (textParts alpha (decompress gunzip data))))) ∧
    (decodeLines gunzip alpha data ≠ [] →
      splitNl (extract_text_from_protobuf gunzip alpha data) =
        decodeLines gunzip alpha data) := by
  by_cases hd : data = []
  · subst hd
    simp only [decodeLines, if_pos rfl]
    exact ⟨List.nodup_nil, by simp, by simp, fun h => absurd rfl h, fun h => absurd rfl h⟩
  · have hL : decodeLines gunzip alpha data =
        firstSeenDedup (splitNl (joinNl (textParts alpha (decompress gunzip data)))) := by
      rw [decodeLines, if_neg hd, firstSeenDedup]
      exact dedupLoop_eq_foldl _ [] [] (fun t => Iff.rfl)
    have hmem : ∀ l, l ∈ decodeLines gunzip alpha data →
        l ∈ (splitNl (joinNl (textParts alpha (decompress gunzip data)))).map pyStrip := by
      intro l hl
      rw [hL, firstSeenDedup] at hl
      rcases foldl_dedupF_mem _ [] l hl with h1 | h1
      · simp at h1
      · exact h1
    refine ⟨?_, ?_, hmem, fun _ => hL, ?_⟩
    · rw [hL, firstSeenDedup]
      exact foldl_dedupF_nodup _ [] List.nodup_nil
    · rw [hL, firstSeenDedup]
      exact foldl_dedupF_no_nil _ [] (by simp)
    · intro hne
      have hnl : ∀ l ∈ decodeLines gunzip alpha data, 10 ∉ l := by
        intro l hl
        obtain ⟨l0, hl0, rfl⟩ := List.mem_map.mp (hmem l hl)
        intro hc
        exact splitNl_no_newline _ l0 hl0 (mem_pyStrip 10 l0 hc)
      rw [extract_text_from_protobuf]
      exact splitNl_joinNl _ hne hnl

/-- Witness for claim C3's theorem at the concrete buffer helloBuf. -/
theorem c3_dedup_properties_witness :
    (decodeLines noGzip asciiIsAlpha helloBuf).Nodup ∧
    strCp "hello" ∈
      (splitNl (joinNl (textParts asciiIsAlpha (decompress noGzip helloBuf)))).map pyStrip ∧
    decodeLines noGzip asciiIsAlpha helloBuf =
      firstSeenDedup (splitNl (joinNl (textParts asciiIsAlpha (decompress noGzip helloBuf)))) ∧
    splitNl (extract_text_from_protobuf noGzip asciiIsAlpha helloBuf) =
      decodeLines noGzip asciiIsAlpha helloBuf := by
  obtain ⟨h1, _, h3, h4, h5⟩ := c3_dedup_properties noGzip asciiIsAlpha helloBuf
  exact ⟨h1, h3 (strCp "hello") (by decide), h4 (by decide), h5 (by decide)⟩

/-- Claim C4 (confirmed): the scan cursor strictly increases on every
loop iteration of every buffer (so the scan terminates in at most
buffer-length iterations), and a buffer ending in a truncated varint
(continuation bit set on the final bytes) is handled without an error
value: it still yields the candidate found before the truncation point. -/
theorem c4_scan_progress_and_truncated :
    (∀ (d : List Nat) (i : Nat), i < (scanStep d i).1) ∧
    (∀ d : List Nat, List.Chain' (· < ·) (scanCursors d)) ∧
    scanLoop truncBuf = [(2, 2)] ∧
    extract_text_from_protobuf noGzip asciiIsAlpha truncBuf = strCp "hi" := by
  exact ⟨scanStep_lt, fun d => cursorsGo_chain d _ 0, by decide, by decide⟩

/-- Claim C5 (confirmed): the scan cursor is monotonically non-decreasing,
every byte read during the scan occurs at an index strictly below the
buffer length, and every accepted field satisfies 0 < length < 10000 and
start + length bounded by the buffer length. -/
theorem c5_scan_safety (d : List Nat) :
    List.Chain' (· ≤ ·) (scanCursors d) ∧
    (∀ r, r ∈ scanReads d → r < d.length) ∧
    (∀ s l, (s, l) ∈ scanLoop d → 0 < l ∧ l < 10000 ∧ s + l ≤ d.length) := by
  refine ⟨?_, ?_, ?_⟩
  · exact List.Chain'.imp (fun a b hab => le_of_lt hab) (cursorsGo_chain d _ 0)
  · intro r hr
    exact readsGo_lt d _ 0 r hr
  · intro s l h
    exact scanGo_bounds d _ 0 s l h

/-- Witness for claim C5's theorem at the concrete buffer helloBuf, read
index 0 and emitted span (2, 5). -/
theorem c5_scan_safety_witness :
    List.Chain' (· ≤ ·) (scanCursors helloBuf) ∧
    (0 : Nat) < helloBuf.length ∧
    (0 < 5 ∧ 5 < 10000 ∧ 2 + 5 ≤ helloBuf.length) := by
  obtain ⟨h1, h2, h3⟩ := c5_scan_safety helloBuf
  exact ⟨h1, h2 0 (by decide), h3 2 5 (by decide)⟩

/-- Claim C6 (confirmed): decompression is an attempted gzip unwrap whose
only failure handling is returning the input unchanged; the function is
total, with no error channel (the gunzip oracle models the gzip library
call, none standing for any raised exception). -/
theorem c6_decompress_total_fallback
    (gunzip : List Nat → Option (List Nat)) (data : List Nat) :
    (gunzip data = none → decompress gunzip data = data) ∧
    (∀ out, gunzip data = some out → decompress gunzip data = out) := by
  constructor
  · intro h; simp [decompress, h]
  · intro out h; simp [decompress, h]

/-- Witness for claim C6's theorem: a failing gunzip oracle on a concrete
buffer returns the buffer unchanged. -/
theorem c6_decompress_total_fallback_witness :
    noGzip [31, 139, 8] = none ∧ decompress noGzip [31, 139, 8] = [31, 139, 8] :=
  ⟨rfl, (c6_decompress_total_fallback noGzip [31, 139, 8]).1 rfl⟩

/-- Claim C7 (corrected), counterexample: uuidEmbedBuf contains a field
whose entire decoded content is a 36-character UUID-shaped string, and
that very string appears verbatim as a line of the decoded output,
because a second candidate contains the same UUID after a letter and an
embedded newline and the line split happens after filtering. -/
theorem c7_uuid_line_counterexample :
    ¬ (∀ (data : List Nat) (sp : Nat × Nat) (t : List Nat),
        sp ∈ scanLoop data →
        utf8Decode (spanBytes data sp.1 sp.2) = some t →
        t.length = 36 → t.all isHexDash = true →
        t ∉ decodeLines noGzip asciiIsAlpha data) := by
  intro h
  exact h uuidEmbedBuf (2, 36) uuidCp (by decide) (by decide) (by decide) (by decide)
    (by decide)

/-- Claim C7 (amended): a candidate whose entire decoded content is a
36-character UUID-shaped string is never accepted by the filter, so it
contributes nothing to the output by itself; only a longer accepted
candidate embedding the UUID around newlines can put it on an output
line. -/
theorem c7_uuid_candidate_rejected (alpha : Nat → Bool) (bs t : List Nat)
    (h1 : utf8Decode bs = some t) (h2 : t.length = 36)
    (h3 : t.all isHexDash = true) :
    textFilter alpha bs = none := by
  have ht : textFilter alpha bs =
      (if t.length > 1 ∧ t.any alpha = true ∧ t.headD 1 ≠ 0 then
        if uuidMatch t = false then some t else none
      else none) := by
    unfold textFilter
    rw [h1]
  have hm : uuidMatch t = true := by
    unfold uuidMatch
    simp [h2, h3]
  rw [ht]
  simp [hm]

/-- Witness for claim C7's amended theorem at the concrete UUID bytes. -/
theorem c7_uuid_candidate_rejected_witness :
    utf8Decode uuidCp = some uuidCp ∧ textFilter asciiIsAlpha uuidCp = none :=
  ⟨by decide, c7_uuid_candidate_rejected asciiIsAlpha uuidCp uuidCp (by decide) (by decide)
    (by decide)⟩

/-- Claim C8 (confirmed): a buffer holding two back-to-back wire-type-2
fields encoding hello and a third encoding ab decodes to exactly the
two-line string hello-newline-ab, for any gunzip oracle that fails on the
buffer (it is not gzip data). -/
theorem c8_hello_hello_ab (gunzip : List Nat → Option (List Nat))
    (h : gunzip helloBuf = none) :
    extract_text_from_protobuf gunzip asciiIsAlpha helloBuf = strCp "hello\nab" := by
  have hd : decompress gunzip helloBuf = helloBuf := by simp [decompress, h]
  simp only [extract_text_from_protobuf, decodeLines, hd]
  decide

/-- Witness for claim C8's theorem with the always-failing gunzip oracle. -/
theorem c8_hello_hello_ab_witness :
    extract_text_from_protobuf noGzip asciiIsAlpha helloBuf = strCp "hello\nab" :=
  c8_hello_hello_ab noGzip rfl

/-- Claim C9 (confirmed): decoding the compression of a buffer equals
decoding the buffer directly, whenever the gunzip oracle inverts the
compression and fails on the raw buffer (the raw buffer is not itself
valid gzip); compressed data is never empty, reflected by the hypothesis
on c. -/
theorem c9_gzip_transparent (gunzip : List Nat → Option (List Nat))
    (alpha : Nat → Bool) (buf c : List Nat)
    (hc : gunzip c = some buf) (hb : gunzip buf = none) (hne : c ≠ []) :
    extract_text_from_protobuf gunzip alpha c =
      extract_text_from_protobuf gunzip alpha buf := by
  have hdc : decompress gunzip c = buf := by simp [decompress, hc]
  have hdb : decompress gunzip buf = buf := by simp [decompress, hb]
  by_cases hbe : buf = []
  · subst hbe
    simp only [extract_text_from_protobuf, decodeLines, if_neg hne, hdc]
    rfl
  · simp only [extract_text_from_protobuf, decodeLines, if_neg hne, if_neg hbe, hdc, hdb]

/-- Witness for claim C9's theorem with the toy invertible compression
oracle on a concrete buffer. -/
theorem c9_gzip_transparent_witness :
    toyGunzip [31, 5] = some [5] ∧ toyGunzip [5] = none ∧
    extract_text_from_protobuf toyGunzip asciiIsAlpha [31, 5] =
      extract_text_from_protobuf toyGunzip asciiIsAlpha [5] :=
  ⟨rfl, rfl, c9_gzip_transparent toyGunzip asciiIsAlpha [5] [31, 5] rfl rfl (by decide)⟩

/-- Claim C10 (confirmed): the readability checks are per candidate, not
per output line: the single candidate of newlineFieldBuf, the text ab
followed by a newline and the digit 1, passes the whole-string checks,
and splitting afterwards leaves the output line 1, which has length one
and no alphabetic character. -/
theorem c10_embedded_newline_lines :
    textFilter asciiIsAlpha (strCp "ab\n1") = some (strCp "ab\n1") ∧
    decodeLines noGzip asciiIsAlpha newlineFieldBuf = [strCp "ab", strCp "1"] ∧
    (strCp "1").length = 1 ∧
    (strCp "1").any asciiIsAlpha = false := by
  exact ⟨by decide, by decide, by decide, by decide⟩

end AppleNotes
